import Mathlib

/-!
Verification of the Zorbblez backend round engine (`src/server.js`, the
variant containing `generateRound`, `buildLivePlayersFromComments`,
`clampInt`, the `/round/today/winner` handler and `/leaderboard.json`).

JavaScript strings are modeled as Lean `String`s; string operations that
the Lean kernel cannot evaluate (`String.toLower`, `String.trim`,
`String.prototype.includes`) are re-implemented over the underlying
character lists so every definition is executable.  JavaScript numbers
appearing as request inputs are modeled by `JsNum` (a rational, or `nan`
for every non-finite value).  The ambient randomness consumed by
`Math.random()` inside `shuffle` is modeled by an explicit tape
`tape : Nat → Nat`: the draw `Math.floor(Math.random() * (i + 1))`,
whose range is exactly `{0, …, i}`, becomes `tape i % (i + 1)`.
-/

/-- JS `s.toLowerCase()` (per-character lowering). -/
def lowerStr (s : String) : String := String.mk (s.data.map Char.toLower)

/-- JS `s.trim()`: strip leading and trailing whitespace. -/
def trimStr (s : String) : String :=
  String.mk (((s.data.dropWhile Char.isWhitespace).reverse.dropWhile Char.isWhitespace).reverse)

/-- Helper `leadMatch needle hay`: `needle` matches the front of `hay`. -/
def leadMatch : List Char → List Char → Bool
  | [], _ => true
  | _ :: _, [] => false
  | a :: as, b :: bs => a == b && leadMatch as bs

/-- JS `hay.includes(needle)`: `needle` occurs contiguously in `hay`. -/
def containsSeq (hay needle : List Char) : Bool :=
  match hay with
  | [] => needle.isEmpty
  | _ :: rest => leadMatch needle hay || containsSeq rest needle

/-- A JavaScript number as it reaches `clampInt` / `Number(...)`:
`nan` stands for every non-finite result (`NaN`, `±Infinity`), e.g. the
result of `Number` applied to a non-numeric query string. -/
inductive JsNum where
  | nan
  | num (q : ℚ)
deriving DecidableEq

/-- Source `clampInt(n, min, max)`:
`Number(n)`; non-finite yields `min`; otherwise
`Math.max(min, Math.min(max, Math.floor(x)))`. -/
def clampInt (n : JsNum) (lo hi : Int) : Int :=
  match n with
  | .nan => lo
  | .num q => Max.max lo (Min.min hi ⌊q⌋)

/-- Source `qualifies(text)`, with the configured
`REQUIRE_KEYWORD` (already trimmed and lowercased at startup) passed
explicitly: an empty keyword accepts everything, otherwise the lowered
text must contain the keyword. -/
def qualifies (kw : String) (text : String) : Bool :=
  if kw.data.isEmpty then true
  else containsSeq (lowerStr text).data kw.data

/-- Source `safeStr(s, maxLen)`: `(s ?? "").toString().slice(0, maxLen)`. -/
def safeStr (s : Option String) (maxLen : Nat) : String :=
  String.mk ((s.getD "").data.take maxLen)

/-- The destructuring swap `[a[i], a[j]] = [a[j], a[i]]` on a list;
out-of-range indices leave the list unchanged (never hit by `shuffle`). -/
def swapL {α : Type} (l : List α) (i j : Nat) : List α :=
  match l.get? i, l.get? j with
  | some x, some y => (l.set i y).set j x
  | _, _ => l

/-- The loop of `shuffle`: `for (let i = a.length - 1; i > 0; i--)`,
processing index `v + 1` and recursing downward; the random draw
`Math.floor(Math.random() * (i + 1))` is `tape i % (i + 1)`. -/
def shuffleGo {α : Type} (tape : Nat → Nat) : List α → Nat → List α
  | l, 0 => l
  | l, v + 1 => shuffleGo tape (swapL l (v + 1) (tape (v + 1) % (v + 2))) v

/-- Source `shuffle(arr)` (Fisher–Yates on a copy). -/
def shuffle {α : Type} (tape : Nat → Nat) (l : List α) : List α :=
  shuffleGo tape l (l.length - 1)

/-- A raw feed comment `{id, username, text, timestamp}`.  Absent
`username`/`text` are collapsed to `""` (the source coalesces them with
`|| ""`), absent `id`/`timestamp` to `none`. -/
structure RawComment where
  id : Option String := none
  username : String := ""
  text : String := ""
  timestamp : Option String := none
deriving DecidableEq

/-- JS `x || null` on an optional string: `""` collapses to null. -/
def orNull (s : Option String) : Option String :=
  match s with
  | some t => if t.data.isEmpty then none else some t
  | none => none

/-- An entry of the `uniq` array built inside `buildLivePlayersFromComments`. -/
structure Candidate where
  handle : String
  source : String
  comment_id : Option String
  comment_text : String
  comment_ts : Option String
deriving DecidableEq

/-- A roster entry as stored in the round's `players` array. -/
structure Player where
  slot : Nat
  handle : String
  img : Option String
  source : String
  comment_id : Option String
  comment_text : Option String
  comment_ts : Option String
deriving DecidableEq

/-- The feed post reference kept in the round row. -/
structure Post where
  id : String
  permalink : String
deriving DecidableEq

/-- A `rounds` row as written by this variant of the backend. -/
structure Round where
  round_date : String
  mode : String
  status : String
  claimed_total : Int
  finale_count : Int
  seed : Nat
  post : Option Post
  players : List Player
  winner : Option String
  winner_slot : Option ℚ
  winner_set_at : Option String
deriving DecidableEq

/-- The object pushed onto `uniq` for a kept comment `c` whose trimmed
username is `username`. -/
def mkCandidate (c : RawComment) (username : String) : Candidate :=
  { handle := username, source := "comment", comment_id := orNull c.id,
    comment_text := c.text, comment_ts := orNull c.timestamp }

/-- The dedup loop of `buildLivePlayersFromComments`: skip blank trimmed
usernames, skip already-seen lowercased keys, skip non-qualifying text;
otherwise record the key and append the candidate. -/
def dedupeGo (kw : String) : List String → List Candidate → List RawComment → List Candidate
  | _, uniq, [] => uniq
  | seen, uniq, c :: rest =>
    let username := trimStr c.username
    if username.data.isEmpty then dedupeGo kw seen uniq rest
    else
      let key := lowerStr username
      if seen.contains key then dedupeGo kw seen uniq rest
      else if !(qualifies kw c.text) then dedupeGo kw seen uniq rest
      else dedupeGo kw (key :: seen) (uniq ++ [mkCandidate c username]) rest

/-- The `uniq` array produced by the loop of `buildLivePlayersFromComments`. -/
def dedupeQualifying (kw : String) (cs : List RawComment) : List Candidate :=
  dedupeGo kw [] [] cs

/-- One element of `picked.map((p, i) => ({slot: i + 1, ...p}))`. -/
def toLivePlayer (i : Nat) (p : Candidate) : Player :=
  { slot := i + 1, handle := p.handle, img := none, source := p.source,
    comment_id := p.comment_id, comment_text := some p.comment_text,
    comment_ts := p.comment_ts }

/-- Mapping with the element index passed to the function. -/
def withSlots {α β : Type} (f : Nat → α → β) : Nat → List α → List β
  | _, [] => []
  | i, a :: rest => f i a :: withSlots f (i + 1) rest

/-- Source `buildLivePlayersFromComments(comments, cap)`:
dedup, shuffle, truncate to `cap`, then assign slots `1..n`. -/
def buildLivePlayersFromComments (kw : String) (tape : Nat → Nat)
    (comments : List RawComment) (cap : Int) : List Player :=
  let uniq := dedupeQualifying kw comments
  let picked := (shuffle tape uniq).take cap.toNat
  withSlots toLivePlayer 0 picked

/-- Source `buildTrainingPlayers(count)`: synthetic entrants
with handles `#1..#N`. -/
def buildTrainingPlayers (count : Nat) : List Player :=
  (List.range count).map (fun i =>
    { slot := i + 1, handle := "#" ++ toString (i + 1), img := none,
      source := "training", comment_id := none, comment_text := none,
      comment_ts := none })

/-- Outcome of the feed-client section of `generateRound`:
no access token configured (the block is skipped), `getLatestMedia`
throwing, `getLatestMedia` yielding no post id, `getComments` throwing
after a post was found, or a post with its fetched comment list. -/
inductive FeedOutcome where
  | noToken
  | mediaError
  | noPost
  | commentsError (p : Post)
  | ok (p : Post) (comments : List RawComment)

/-- The capacity computed at the top of `generateRound`:
`clampInt(requestedMaxPlayers ?? PLAYER_COUNT_MAX, MIN_PLAYERS, PLAYER_COUNT_MAX)`. -/
def capOf (playerCountMax : Int) (requestedMax : Option JsNum) : Int :=
  clampInt (requestedMax.getD (JsNum.num (playerCountMax : ℚ))) 2 playerCountMax

/-- The mutable locals of `generateRound` after the live-attempt and
training-fallback blocks have run (everything except the seed and date). -/
structure Resolved where
  mode : String
  post : Option Post
  players : List Player
  claimed_total : Int
deriving DecidableEq

/-- The value of the `post` local after the `try` block: it is assigned
as soon as `getLatestMedia` returns a post with an id, before
`getComments` runs, and is never reset on fallback. -/
def postOf (feed : FeedOutcome) : Option Post :=
  match feed with
  | .ok p _ => some p
  | .commentsError p => some p
  | _ => none

/-- The condition under which `generateRound` falls back to training:
any feed outcome other than a successful comment fetch, or a live roster
under `MIN_PLAYERS = 2`. -/
def isFallback (kw : String) (playerCountMax : Int) (tape : Nat → Nat) :
    FeedOutcome → Bool
  | .ok _ comments =>
    decide ((buildLivePlayersFromComments kw tape comments playerCountMax).length < 2)
  | _ => true

/-- The body of `generateRound` up to (not including) the final
`finale_count` recomputation: attempt live mode inside the `try`, fall
back to training when the feed fails, yields no post, or the live roster
is under `MIN_PLAYERS = 2`.  Note that `post` keeps the fetched post even
on fallback (it is assigned before `getComments` and never reset). -/
def resolveRound (kw : String) (playerCountMax : Int) (requestedMax : Option JsNum)
    (feed : FeedOutcome) (tape : Nat → Nat) : Resolved :=
  let cap := capOf playerCountMax requestedMax
  let live : Option (Post × List Player × Int) :=
    match feed with
    | .ok p comments =>
      let livePlayers := buildLivePlayersFromComments kw tape comments playerCountMax
      let claimed : Int := livePlayers.length
      if 2 ≤ claimed then
        let fc := clampInt (JsNum.num ((Min.min claimed cap : Int) : ℚ)) 2 playerCountMax
        some (p, livePlayers.take fc.toNat, claimed)
      else none
    | _ => none
  match live with
  | some (_, players, claimed) =>
    { mode := "live", post := postOf feed, players := players, claimed_total := claimed }
  | none =>
    let fc := clampInt (JsNum.num (cap : ℚ)) 2 playerCountMax
    { mode := "training", post := postOf feed, players := buildTrainingPlayers fc.toNat,
      claimed_total := cap }

/-- Source `generateRound({requestedMaxPlayers})`: resolve the
round and assemble the row (status `pending`, final `finale_count`
recomputed from the player-list length, winner fields null). -/
def generateRound (kw : String) (playerCountMax : Int) (requestedMax : Option JsNum)
    (feed : FeedOutcome) (tape : Nat → Nat) (seed : Nat) (round_date : String) : Round :=
  let r := resolveRound kw playerCountMax requestedMax feed tape
  { round_date := round_date, mode := r.mode, status := "pending",
    claimed_total := r.claimed_total,
    finale_count := clampInt (JsNum.num ((r.players.length : Int) : ℚ)) 2 playerCountMax,
    seed := seed, post := r.post, players := r.players,
    winner := none, winner_slot := none, winner_set_at := none }

/-- Composition of `generateRound` with `await upsertRound(row)`: a persistence
error propagates (there is no catch around the upsert) and the store is
untouched; otherwise the row replaces the one stored under its date. -/
def generateAndPersist (persistErr : Option String) (store : String → Option Round)
    (kw : String) (playerCountMax : Int) (requestedMax : Option JsNum)
    (feed : FeedOutcome) (tape : Nat → Nat) (seed : Nat) (round_date : String) :
    Except String Round × (String → Option Round) :=
  let row := generateRound kw playerCountMax requestedMax feed tape seed round_date
  match persistErr with
  | some e => (Except.error ("Supabase upsert failed: " ++ e), store)
  | none => (Except.ok row, fun d => if d = row.round_date then some row else store d)

/-- Coercion `Number.isFinite(Number(raw)) ? Number(raw) : null`. -/
def jsFiniteOpt (n : JsNum) : Option ℚ :=
  match n with
  | .nan => none
  | .num q => some q

/-- The `POST /round/today/winner` handler: truncate the body's winner
string to 64 characters, coerce the body's slot to a finite number or
null, then update every stored round whose `round_date` is today with
`status = "complete"`, `winner = winner || null`, `winner_slot` and
`winner_set_at = now`; respond `{ok: true}` regardless of whether any
round matched. -/
def recordWinner (store : List Round) (today : String) (bodyWinner : Option String)
    (bodySlot : JsNum) (now : String) : Bool × List Round :=
  let winner := safeStr bodyWinner 64
  let winner_slot := jsFiniteOpt bodySlot
  (true, store.map fun r =>
    if r.round_date = today then
      { r with status := "complete",
               winner := if winner.data.isEmpty then none else some winner,
               winner_slot := winner_slot,
               winner_set_at := some now }
    else r)

/-- One step of the `counts[u] = (counts[u] || 0) + 1` tally, with the JS
object modeled as an association list in key-insertion order. -/
def tallyStep (counts : List (String × Nat)) (w : String) : List (String × Nat) :=
  if counts.any (fun p => p.1 == w) then
    counts.map (fun p => if p.1 == w then (p.1, p.2 + 1) else p)
  else counts ++ [(w, 1)]

/-- The `GET /leaderboard.json` handler over the stored rounds: take the
non-null winners, skip falsy (empty) strings (`if (!w) continue`), tally
exact strings, and sort by the comparator `(a, b) => b[1] - a[1]`
(stable, descending by count). -/
def leaderboard (rounds : List Round) : List (String × Nat) :=
  let ws := (rounds.filterMap Round.winner).filter (fun w => !w.data.isEmpty)
  let counts := ws.foldl tallyStep []
  counts.mergeSort (fun a b => decide (b.2 ≤ a.2))

/-- Spec-side qualification predicate, following the spec's words: a
comment qualifies when its handle is non-blank and its text contains the
configured substring case-insensitively (every non-blank-handle comment
when no substring is configured). -/
def qualifiesComment (kw : String) (c : RawComment) : Bool :=
  !(trimStr c.username).data.isEmpty && qualifies kw c.text

/-- The case-insensitive handle key of a comment. -/
def keyOf (c : RawComment) : String := lowerStr (trimStr c.username)

/-- Spec-side first-seen-wins deduplication by key, given the set of
already-seen keys. -/
def dedupFirstAux {α : Type} (key : α → String) (seen : List String) : List α → List α
  | [] => []
  | a :: rest =>
    if seen.contains (key a) then dedupFirstAux key seen rest
    else a :: dedupFirstAux key (key a :: seen) rest

/-- Spec-side first-seen-wins deduplication by key ("retains at most one
candidate per case-insensitive handle, the earliest kept"). -/
def dedupFirstBy {α : Type} (key : α → String) (l : List α) : List α :=
  dedupFirstAux key [] l

/-! ### Lemmas about the numeric helpers -/

theorem clampInt_intCast (n lo hi : Int) :
    clampInt (JsNum.num (n : ℚ)) lo hi = Max.max lo (Min.min hi n) := by
  simp [clampInt]

theorem two_le_capOf (pmax : Int) (rmax : Option JsNum) : 2 ≤ capOf pmax rmax := by
  unfold capOf
  cases rmax.getD (JsNum.num (pmax : ℚ)) with
  | nan => simp [clampInt]
  | num q => simp [clampInt]

theorem capOf_le (pmax : Int) (rmax : Option JsNum) (hmax : 2 ≤ pmax) :
    capOf pmax rmax ≤ pmax := by
  unfold capOf
  cases rmax.getD (JsNum.num (pmax : ℚ)) with
  | nan => simpa [clampInt] using hmax
  | num q => simp [clampInt]; omega

theorem capOf_fixed (pmax : Int) (rmax : Option JsNum) :
    clampInt (JsNum.num ((capOf pmax rmax : Int) : ℚ)) 2 pmax = capOf pmax rmax := by
  rw [clampInt_intCast]
  unfold capOf
  cases rmax.getD (JsNum.num (pmax : ℚ)) with
  | nan => simp [clampInt]
  | num q => simp [clampInt]; omega

/-! ### Length preservation of the shuffle -/

theorem swapL_length {α : Type} (l : List α) (i j : Nat) :
    (swapL l i j).length = l.length := by
  unfold swapL
  cases h1 : l.get? i <;> cases h2 : l.get? j <;> simp

theorem shuffleGo_length {α : Type} (tape : Nat → Nat) (v : Nat) :
    ∀ l : List α, (shuffleGo tape l v).length = l.length := by
  induction v with
  | zero => intro l; rfl
  | succ v ih =>
    intro l
    rw [shuffleGo, ih, swapL_length]

theorem shuffle_length {α : Type} (tape : Nat → Nat) (l : List α) :
    (shuffle tape l).length = l.length := shuffleGo_length tape (l.length - 1) l

/-! ### Lemmas about slot numbering and the player builders -/

theorem withSlots_length {α β : Type} (f : Nat → α → β) (i : Nat) (l : List α) :
    (withSlots f i l).length = l.length := by
  induction l generalizing i with
  | nil => rfl
  | cons a rest ih => simp [withSlots, ih]

theorem withSlots_take {α β : Type} (f : Nat → α → β) (i k : Nat) (l : List α) :
    (withSlots f i l).take k = withSlots f i (l.take k) := by
  induction l generalizing i k with
  | nil => simp [withSlots]
  | cons a rest ih =>
    cases k with
    | zero => simp [withSlots]
    | succ k => simp [withSlots, ih]

theorem withSlots_slot (i : Nat) (l : List Candidate) :
    (withSlots toLivePlayer i l).map Player.slot = List.range' (i + 1) l.length := by
  induction l generalizing i with
  | nil => simp [withSlots]
  | cons a rest ih => simp [withSlots, toLivePlayer, ih, List.range'_succ]

theorem buildTrainingPlayers_length (n : Nat) :
    (buildTrainingPlayers n).length = n := by simp [buildTrainingPlayers]

theorem buildTrainingPlayers_slot (n : Nat) :
    (buildTrainingPlayers n).map Player.slot = List.range' 1 n := by
  simp only [buildTrainingPlayers, List.map_map, List.range'_eq_map_range]
  apply List.map_congr_left
  intro i _
  simp [Nat.add_comm]

theorem buildTrainingPlayers_handle (n : Nat) :
    (buildTrainingPlayers n).map Player.handle =
      (List.range n).map (fun i => "#" ++ toString (i + 1)) := by
  simp [buildTrainingPlayers, List.map_map]

theorem livePlayers_length (kw : String) (tape : Nat → Nat)
    (comments : List RawComment) (cap : Int) :
    (buildLivePlayersFromComments kw tape comments cap).length
      = Min.min cap.toNat (dedupeQualifying kw comments).length := by
  simp [buildLivePlayersFromComments, withSlots_length, shuffle_length]

/-! ### The two outcomes of the resolver -/

theorem resolveRound_training (kw : String) (pmax : Int) (rmax : Option JsNum)
    (feed : FeedOutcome) (tape : Nat → Nat)
    (hfb : isFallback kw pmax tape feed = true) :
    resolveRound kw pmax rmax feed tape =
      { mode := "training", post := postOf feed,
        players := buildTrainingPlayers (capOf pmax rmax).toNat,
        claimed_total := capOf pmax rmax } := by
  have hfix := capOf_fixed pmax rmax
  cases feed with
  | ok p comments =>
    have hlt : ((buildLivePlayersFromComments kw tape comments pmax).length : Int) < 2 := by
      have h := of_decide_eq_true (by simpa [isFallback] using hfb)
      omega
    simp only [resolveRound]
    rw [if_neg (by omega)]
    simp [hfix]
  | noToken => simp [resolveRound, hfix]
  | mediaError => simp [resolveRound, hfix]
  | noPost => simp [resolveRound, hfix]
  | commentsError p => simp [resolveRound, hfix]

theorem resolveRound_live (kw : String) (pmax : Int) (rmax : Option JsNum)
    (p : Post) (comments : List RawComment) (tape : Nat → Nat)
    (h2 : 2 ≤ (buildLivePlayersFromComments kw tape comments pmax).length) :
    resolveRound kw pmax rmax (FeedOutcome.ok p comments) tape =
      { mode := "live", post := some p,
        players := (buildLivePlayersFromComments kw tape comments pmax).take
          (Min.min ((buildLivePlayersFromComments kw tape comments pmax).length : Int)
            (capOf pmax rmax)).toNat,
        claimed_total := ((buildLivePlayersFromComments kw tape comments pmax).length : Int) } := by
  have hcap2 := two_le_capOf pmax rmax
  have hmax : 2 ≤ pmax := by
    have hle : (buildLivePlayersFromComments kw tape comments pmax).length ≤ pmax.toNat := by
      rw [livePlayers_length]; omega
    omega
  have hcapb := capOf_le pmax rmax hmax
  simp only [resolveRound]
  rw [if_pos (by omega)]
  rw [clampInt_intCast]
  have hmin : Max.max 2 (Min.min pmax
      (Min.min ((buildLivePlayersFromComments kw tape comments pmax).length : Int)
        (capOf pmax rmax))) =
      Min.min ((buildLivePlayersFromComments kw tape comments pmax).length : Int)
        (capOf pmax rmax) := by omega
  rw [hmin]
  rfl

/-! ### Concrete sample data used by counterexamples and witnesses -/

def postA : Post := { id := "post1", permalink := "link1" }

def commentAlice : RawComment := { id := some "c1", username := "Alice", text := "count me IN!!" }

def commentBob : RawComment := { id := some "c2", username := "bob", text := "in please" }

def commentCarol : RawComment := { id := some "c3", username := "carol", text := "im in" }

def alicePlayer : Player :=
  { slot := 1, handle := "alice", img := none, source := "comment",
    comment_id := none, comment_text := some "in", comment_ts := none }

def bobPlayer : Player :=
  { slot := 2, handle := "bobby", img := none, source := "comment",
    comment_id := none, comment_text := some "in", comment_ts := none }

def sampleRound : Round :=
  { round_date := "2026-10-11", mode := "live", status := "pending", claimed_total := 2,
    finale_count := 2, seed := 0, post := none, players := [alicePlayer, bobPlayer],
    winner := none, winner_slot := none, winner_set_at := none }

/-! ### C7: persistence failure is fatal and leaves the store untouched -/

/-- C7: when the persistence write fails, `generateRound` propagates the
failure to the caller (there is no catch around `upsertRound`), the
generation attempt yields no round, and the stored rounds — in
particular any previously stored round for the same date — are
unchanged. -/
theorem persistence_failure_fatal (e : String) (store : String → Option Round)
    (kw : String) (pmax : Int) (rmax : Option JsNum) (feed : FeedOutcome)
    (tape : Nat → Nat) (seed : Nat) (d : String) :
    (generateAndPersist (some e) store kw pmax rmax feed tape seed d).1 =
      Except.error ("Supabase upsert failed: " ++ e) ∧
    (generateAndPersist (some e) store kw pmax rmax feed tape seed d).2 = store ∧
    ∀ date : String,
      (generateAndPersist (some e) store kw pmax rmax feed tape seed d).2 date = store date :=
  ⟨rfl, rfl, fun _ => rfl⟩

/-! ### C9: the stored seed does not determine the selection -/

/-- C9: the recorded seed is stored in the row but never consumed by the
shuffle: the players of a generated round are identical for any two seed
values, while two draws of the external randomness (two tapes) can
produce different selections from the same candidate list under the same
seed. -/
theorem seed_not_consumed_by_shuffle :
    (∀ (kw : String) (pmax : Int) (rmax : Option JsNum) (feed : FeedOutcome)
       (tape : Nat → Nat) (d : String) (s1 s2 : Nat),
       (generateRound kw pmax rmax feed tape s1 d).players =
         (generateRound kw pmax rmax feed tape s2 d).players) ∧
    (∃ t1 t2 : Nat → Nat,
       (generateRound "" 100 none (FeedOutcome.ok postA [commentAlice, commentBob]) t1 0 "D").seed =
         (generateRound "" 100 none (FeedOutcome.ok postA [commentAlice, commentBob]) t2 0 "D").seed ∧
       (generateRound "" 100 none (FeedOutcome.ok postA [commentAlice, commentBob]) t1 0 "D").players ≠
         (generateRound "" 100 none (FeedOutcome.ok postA [commentAlice, commentBob]) t2 0 "D").players) :=
  ⟨fun _ _ _ _ _ _ _ _ => rfl,
   ⟨fun _ => 0, fun _ => 1, rfl, by decide⟩⟩

/-! ### C10: an unparsable requested maximum falls to the lower bound -/

/-- C10: `clampInt` returns its lower bound on a non-finite input, so a
requested maximum that does not parse to a finite number makes
`generateRound` use a capacity of `MIN_PLAYERS = 2`, and a fallback
generation then produces a 2-entrant training roster instead of the
configured default maximum. -/
theorem unparsable_max_uses_min (kw : String) (pmax : Int) (lo hi : Int)
    (tape : Nat → Nat) (seed : Nat) (d : String) :
    clampInt JsNum.nan lo hi = lo ∧
    capOf pmax (some JsNum.nan) = 2 ∧
    (generateRound kw pmax (some JsNum.nan) FeedOutcome.mediaError tape seed d).mode =
      "training" ∧
    (generateRound kw pmax (some JsNum.nan) FeedOutcome.mediaError tape seed d).players =
      buildTrainingPlayers 2 ∧
    (generateRound kw pmax (some JsNum.nan) FeedOutcome.mediaError tape seed d).finale_count =
      2 := by
  have hres := resolveRound_training kw pmax (some JsNum.nan) FeedOutcome.mediaError tape rfl
  have hcap : capOf pmax (some JsNum.nan) = 2 := rfl
  refine ⟨rfl, rfl, ?_, ?_, ?_⟩
  · simp [generateRound, hres]
  · simp [generateRound, hres, hcap]
  · simp only [generateRound, hres, hcap]
    rw [clampInt_intCast]
    simp only [buildTrainingPlayers_length]
    omega

/-! ### C1: the winner recorder performs no validation -/

/-- C1 (counterexample): the `/round/today/winner` handler rejects
nothing.  With no round stored for the date it still answers ok; with a
stored round whose entrants are slots 1 and 2 (`alice`, `bobby`), a
request naming winner `mallory` and slot 99 is accepted and stored
verbatim, although no entrant has slot 99 or handle `mallory` — so the
claimed validation and the claimed derivation of the winner handle from
the matched entrant are both absent. -/
theorem recordWinner_validation_claim_false :
    (recordWinner [] "2026-10-11" (some "x") (JsNum.num 3) "T").1 = true ∧
    (recordWinner [] "2026-10-11" (some "x") (JsNum.num 3) "T").2 = [] ∧
    (recordWinner [sampleRound] "2026-10-11" (some "mallory") (JsNum.num 99) "T").1 = true ∧
    (recordWinner [sampleRound] "2026-10-11" (some "mallory") (JsNum.num 99) "T").2.map
        Round.winner = [some "mallory"] ∧
    (recordWinner [sampleRound] "2026-10-11" (some "mallory") (JsNum.num 99) "T").2.map
        Round.winner_slot = [some 99] ∧
    (recordWinner [sampleRound] "2026-10-11" (some "mallory") (JsNum.num 99) "T").2.map
        Round.status = ["complete"] ∧
    sampleRound.players.all (fun p => p.slot != 99 && p.handle != "mallory") = true := by
  decide

/-- C1 (amended): the winner recorder performs no validation at all: it
always reports success (also when no round exists for the date), leaves
rounds of other dates untouched, and on every round of the date it sets
`status = "complete"`, `winner_slot` to the caller-supplied number (null
when non-finite), `winner_set_at` to now, and `winner` to the
caller-supplied string truncated to 64 characters (null when empty) —
the handle is taken from the request body, not from any entrant. -/
theorem recordWinner_no_validation (store : List Round) (today : String)
    (w : Option String) (slotRaw : JsNum) (now : String) :
    (recordWinner store today w slotRaw now).1 = true ∧
    (recordWinner store today w slotRaw now).2.length = store.length ∧
    (∀ r ∈ store, r.round_date ≠ today → r ∈ (recordWinner store today w slotRaw now).2) ∧
    (∀ r2 ∈ (recordWinner store today w slotRaw now).2, r2.round_date = today →
       r2.status = "complete" ∧ r2.winner_slot = jsFiniteOpt slotRaw ∧
       r2.winner_set_at = some now ∧
       r2.winner = (if (safeStr w 64).data.isEmpty then none else some (safeStr w 64))) := by
  refine ⟨rfl, by simp [recordWinner], ?_, ?_⟩
  · intro r hr hne
    simp only [recordWinner, List.mem_map]
    exact ⟨r, hr, by simp [hne]⟩
  · intro r2 hr2 hd
    simp only [recordWinner, List.mem_map] at hr2
    obtain ⟨r, hr, heq⟩ := hr2
    by_cases h : r.round_date = today
    · rw [if_pos h] at heq
      subst heq
      exact ⟨rfl, rfl, rfl, rfl⟩
    · rw [if_neg h] at heq
      subst heq
      exact absurd hd h

theorem recordWinner_no_validation_witness :
    (recordWinner [sampleRound] "2026-10-11" (some "winner") JsNum.nan "T").1 = true :=
  (recordWinner_no_validation [sampleRound] "2026-10-11" (some "winner") JsNum.nan "T").1

/-! ### C2: `claimed_total` is the capped roster size, not the pre-cap count -/

/-- C2 (counterexample): with `PLAYER_COUNT_MAX = 2` and three unique
qualifying commenters, the generated live round stores
`claimed_total = 2`, not the pre-cap unique candidate count 3. -/
theorem claimed_total_claim_false :
    (dedupeQualifying "" [commentAlice, commentBob, commentCarol]).length = 3 ∧
    (generateRound "" 2 none (FeedOutcome.ok postA [commentAlice, commentBob, commentCarol])
        (fun _ => 0) 0 "D").mode = "live" ∧
    (generateRound "" 2 none (FeedOutcome.ok postA [commentAlice, commentBob, commentCarol])
        (fun _ => 0) 0 "D").claimed_total = 2 := by
  decide

/-- C2 (amended): in a live-mode generation `claimed_total` equals the
unique qualifying candidate count capped at `PLAYER_COUNT_MAX` — the
roster builder is called with capacity `PLAYER_COUNT_MAX` and
`claimed_total` is the length of its (already truncated) result — so
when more unique candidates exist than the configured maximum,
`claimed_total` is the maximum, not the full pre-cap count. -/
theorem claimed_total_live (kw : String) (pmax : Int) (rmax : Option JsNum)
    (p : Post) (comments : List RawComment) (tape : Nat → Nat) (seed : Nat) (d : String)
    (hmax : 2 ≤ pmax) (hc : 2 ≤ (dedupeQualifying kw comments).length) :
    (generateRound kw pmax rmax (FeedOutcome.ok p comments) tape seed d).mode = "live" ∧
    (generateRound kw pmax rmax (FeedOutcome.ok p comments) tape seed d).claimed_total =
      Min.min ((dedupeQualifying kw comments).length : Int) pmax := by
  have hlen := livePlayers_length kw tape comments pmax
  have h2 : 2 ≤ (buildLivePlayersFromComments kw tape comments pmax).length := by
    rw [hlen]; omega
  have hres := resolveRound_live kw pmax rmax p comments tape h2
  constructor
  · simp [generateRound, hres]
  · simp only [generateRound, hres]
    rw [hlen]
    omega

theorem claimed_total_live_witness :
    2 ≤ (100 : Int) ∧ 2 ≤ (dedupeQualifying "" [commentAlice, commentBob]).length ∧
    (generateRound "" 100 none (FeedOutcome.ok postA [commentAlice, commentBob])
        (fun _ => 0) 0 "D").claimed_total =
      Min.min ((dedupeQualifying "" [commentAlice, commentBob]).length : Int) 100 :=
  ⟨by decide, by decide,
   (claimed_total_live "" 100 none postA [commentAlice, commentBob] (fun _ => 0) 0 "D"
     (by decide) (by decide)).2⟩

/-! ### C3: the training fallback -/

theorem capOf_cases (pmax : Int) (rmax : Option JsNum) :
    capOf pmax rmax = 2 ∨ capOf pmax rmax ≤ pmax := by
  unfold capOf
  cases rmax.getD (JsNum.num (pmax : ℚ)) with
  | nan => simp [clampInt]
  | num q => simp [clampInt]; omega

/-- C3 (counterexample): a generation with caller-requested maximum 5
and a successfully fetched post carrying a single qualifying comment
falls back to training; the resulting round has `finale_count = 5` (the
clamped requested maximum, not the configured default 100) and a
non-null stored post. -/
theorem training_fallback_claim_false :
    (generateRound "" 100 (some (JsNum.num 5)) (FeedOutcome.ok postA [commentAlice])
        (fun _ => 0) 0 "D").mode = "training" ∧
    (generateRound "" 100 (some (JsNum.num 5)) (FeedOutcome.ok postA [commentAlice])
        (fun _ => 0) 0 "D").finale_count = 5 ∧
    ¬ (generateRound "" 100 (some (JsNum.num 5)) (FeedOutcome.ok postA [commentAlice])
        (fun _ => 0) 0 "D").finale_count = 100 ∧
    ¬ (generateRound "" 100 (some (JsNum.num 5)) (FeedOutcome.ok postA [commentAlice])
        (fun _ => 0) 0 "D").post = none := by
  decide

/-- C3 (amended): every fallback generation yields a training round with
exactly `cap` synthetic entrants whose handles are `#1..#N` in slot
order, where `cap` is the clamped caller-requested maximum (defaulting
to `PLAYER_COUNT_MAX`); `claimed_total` and `finale_count` both equal
`cap`; and the stored post is the fetched post whenever one was found
before the fallback (null only when no post was obtained). -/
theorem training_fallback_behavior (kw : String) (pmax : Int) (rmax : Option JsNum)
    (feed : FeedOutcome) (tape : Nat → Nat) (seed : Nat) (d : String)
    (hfb : isFallback kw pmax tape feed = true) :
    (generateRound kw pmax rmax feed tape seed d).mode = "training" ∧
    (generateRound kw pmax rmax feed tape seed d).players =
      buildTrainingPlayers (capOf pmax rmax).toNat ∧
    (generateRound kw pmax rmax feed tape seed d).players.map Player.handle =
      (List.range (capOf pmax rmax).toNat).map (fun i => "#" ++ toString (i + 1)) ∧
    (generateRound kw pmax rmax feed tape seed d).claimed_total = capOf pmax rmax ∧
    (generateRound kw pmax rmax feed tape seed d).finale_count = capOf pmax rmax ∧
    (generateRound kw pmax rmax feed tape seed d).post = postOf feed := by
  have hres := resolveRound_training kw pmax rmax feed tape hfb
  have hcap2 := two_le_capOf pmax rmax
  refine ⟨by simp [generateRound, hres], by simp [generateRound, hres],
    by simp [generateRound, hres, buildTrainingPlayers_handle],
    by simp [generateRound, hres], ?_, by simp [generateRound, hres]⟩
  simp only [generateRound, hres]
  rw [clampInt_intCast]
  simp only [buildTrainingPlayers_length]
  rcases capOf_cases pmax rmax with h | h <;> omega

theorem training_fallback_behavior_witness :
    isFallback "in" 100 (fun _ => 0) FeedOutcome.mediaError = true ∧
    (generateRound "in" 100 none FeedOutcome.mediaError (fun _ => 0) 0 "D").mode =
      "training" :=
  ⟨rfl,
   (training_fallback_behavior "in" 100 none FeedOutcome.mediaError (fun _ => 0) 0 "D"
     rfl).1⟩

/-! ### C4: a feed failure is never fatal to generation -/

/-- A feed-client failure as listed by the error-handling policy:
the media fetch failing, no post being available, or the comment fetch
failing. -/
def isFeedFailure : FeedOutcome → Bool
  | .mediaError => true
  | .noPost => true
  | .commentsError _ => true
  | _ => false

/-- C4: a failure of the feed client is never propagated as a generation
failure: the `try` block catches it, the attempt degrades to a training
round, and (persistence permitting) a round is still committed to the
store under its date. -/
theorem feed_failure_degrades_to_training (store : String → Option Round)
    (kw : String) (pmax : Int) (rmax : Option JsNum) (feed : FeedOutcome)
    (tape : Nat → Nat) (seed : Nat) (d : String) (hf : isFeedFailure feed = true) :
    (generateAndPersist none store kw pmax rmax feed tape seed d).1 =
      Except.ok (generateRound kw pmax rmax feed tape seed d) ∧
    (generateRound kw pmax rmax feed tape seed d).mode = "training" ∧
    (generateAndPersist none store kw pmax rmax feed tape seed d).2 d =
      some (generateRound kw pmax rmax feed tape seed d) := by
  have hfb : isFallback kw pmax tape feed = true := by
    cases feed with
    | noToken => simp [isFeedFailure] at hf
    | ok p comments => simp [isFeedFailure] at hf
    | mediaError => rfl
    | noPost => rfl
    | commentsError p => rfl
  have hres := resolveRound_training kw pmax rmax feed tape hfb
  refine ⟨rfl, by simp [generateRound, hres], ?_⟩
  simp [generateAndPersist, generateRound]

theorem feed_failure_degrades_to_training_witness :
    isFeedFailure FeedOutcome.mediaError = true ∧
    (generateRound "" 100 none FeedOutcome.mediaError (fun _ => 0) 0 "D").mode =
      "training" :=
  ⟨rfl,
   (feed_failure_degrades_to_training (fun _ => none) "" 100 none FeedOutcome.mediaError
     (fun _ => 0) 0 "D" rfl).2.1⟩

/-! ### C6: roster invariants of every generated round -/

/-- C6: every generated round satisfies the roster invariants: the
player-list length equals the stored `finale_count`; `finale_count` lies
within `[MIN_PLAYERS = 2, PLAYER_COUNT_MAX]`; the players' slots are
exactly the contiguous ordinals `1..finale_count` in list order; and in
live mode the roster length equals the minimum of the effective capacity
and the number of unique qualifying candidates. -/
theorem round_roster_invariants (kw : String) (pmax : Int) (rmax : Option JsNum)
    (feed : FeedOutcome) (tape : Nat → Nat) (seed : Nat) (d : String) (hmax : 2 ≤ pmax) :
    ((generateRound kw pmax rmax feed tape seed d).players.length : Int) =
      (generateRound kw pmax rmax feed tape seed d).finale_count ∧
    2 ≤ (generateRound kw pmax rmax feed tape seed d).finale_count ∧
    (generateRound kw pmax rmax feed tape seed d).finale_count ≤ pmax ∧
    (generateRound kw pmax rmax feed tape seed d).players.map Player.slot =
      List.range' 1 (generateRound kw pmax rmax feed tape seed d).players.length ∧
    ((generateRound kw pmax rmax feed tape seed d).mode = "live" →
      ∃ p comments, feed = FeedOutcome.ok p comments ∧
        ((generateRound kw pmax rmax feed tape seed d).players.length : Int) =
          Min.min (capOf pmax rmax) ((dedupeQualifying kw comments).length : Int)) := by
  have hcap2 := two_le_capOf pmax rmax
  have hcapb := capOf_le pmax rmax hmax
  by_cases hfb : isFallback kw pmax tape feed = true
  · -- training outcome
    have hres := resolveRound_training kw pmax rmax feed tape hfb
    refine ⟨?_, ?_, ?_, ?_, ?_⟩
    · simp only [generateRound, hres]
      rw [clampInt_intCast]
      simp only [buildTrainingPlayers_length]
      omega
    · simp only [generateRound, hres]
      rw [clampInt_intCast]
      simp only [buildTrainingPlayers_length]
      omega
    · simp only [generateRound, hres]
      rw [clampInt_intCast]
      simp only [buildTrainingPlayers_length]
      omega
    · simp only [generateRound, hres]
      rw [buildTrainingPlayers_slot, buildTrainingPlayers_length]
    · intro hmode
      simp only [generateRound, hres] at hmode
      exact absurd hmode (by decide)
  · -- live outcome: the feed must have succeeded with a big enough roster
    cases feed with
    | noToken => exact absurd rfl hfb
    | mediaError => exact absurd rfl hfb
    | noPost => exact absurd rfl hfb
    | commentsError p => exact absurd rfl hfb
    | ok p comments =>
      have h2 : 2 ≤ (buildLivePlayersFromComments kw tape comments pmax).length := by
        simp [isFallback] at hfb
        omega
      have hres := resolveRound_live kw pmax rmax p comments tape h2
      have hlen := livePlayers_length kw tape comments pmax
      have hlive : ∀ k : Nat,
          ((buildLivePlayersFromComments kw tape comments pmax).take k).map Player.slot =
            List.range' 1
              ((buildLivePlayersFromComments kw tape comments pmax).take k).length := by
        intro k
        simp only [buildLivePlayersFromComments]
        rw [withSlots_take, withSlots_slot, withSlots_length]
      refine ⟨?_, ?_, ?_, ?_, ?_⟩
      · simp only [generateRound, hres]
        rw [clampInt_intCast]
        simp only [List.length_take]
        omega
      · simp only [generateRound, hres]
        rw [clampInt_intCast]
        simp only [List.length_take]
        omega
      · simp only [generateRound, hres]
        rw [clampInt_intCast]
        simp only [List.length_take]
        omega
      · simp only [generateRound, hres]
        exact hlive _
      · intro _
        refine ⟨p, comments, rfl, ?_⟩
        simp only [generateRound, hres]
        simp only [List.length_take]
        rw [hlen]
        omega

/-! ### C5: the qualification/deduplication filter -/

theorem dedupeGo_spec (kw : String) :
    ∀ (cs : List RawComment) (seen : List String) (uniq : List Candidate),
      dedupeGo kw seen uniq cs =
        uniq ++ (dedupFirstAux keyOf seen (cs.filter (qualifiesComment kw))).map
          (fun c => mkCandidate c (trimStr c.username)) := by
  intro cs
  induction cs with
  | nil => intro seen uniq; simp [dedupeGo, dedupFirstAux]
  | cons c rest ih =>
    intro seen uniq
    by_cases hb : (trimStr c.username).data.isEmpty
    · have hq : qualifiesComment kw c = false := by simp [qualifiesComment, hb]
      simp only [dedupeGo, hb, if_true, List.filter_cons, hq, if_false, Bool.false_eq_true]
      exact ih seen uniq
    · have hqc : qualifiesComment kw c = qualifies kw c.text := by
        simp [qualifiesComment, hb]
      by_cases hs : seen.contains (lowerStr (trimStr c.username))
      · by_cases hq2 : qualifies kw c.text
        · simp only [dedupeGo, hb, if_false, hs, if_true, List.filter_cons, hqc, hq2,
            dedupFirstAux, keyOf, Bool.false_eq_true]
          exact ih seen uniq
        · simp only [dedupeGo, hb, hs, if_true, List.filter_cons, hqc,
            Bool.false_eq_true, hq2, if_false]
          exact ih seen uniq
      · by_cases hq2 : qualifies kw c.text
        · simp only [dedupeGo, hb, Bool.false_eq_true, if_false, hs, hq2, not_true,
            Bool.not_true, List.filter_cons, hqc, if_true, dedupFirstAux, keyOf]
          rw [ih (lowerStr (trimStr c.username) :: seen)
            (uniq ++ [mkCandidate c (trimStr c.username)])]
          simp
        · simp only [dedupeGo, hb, Bool.false_eq_true, if_false, hs, hq2, Bool.not_false,
            if_true, List.filter_cons, hqc]
          exact ih seen uniq

theorem dedupFirstAux_sublist {α : Type} (key : α → String) :
    ∀ (l : List α) (seen : List String), (dedupFirstAux key seen l).Sublist l := by
  intro l
  induction l with
  | nil => intro seen; simp [dedupFirstAux]
  | cons a rest ih =>
    intro seen
    simp only [dedupFirstAux]
    split
    · exact (ih seen).trans (List.sublist_cons_self a rest)
    · exact List.Sublist.cons₂ a (ih _)

theorem dedupFirstAux_keys {α : Type} (key : α → String) :
    ∀ (l : List α) (seen : List String),
      ((dedupFirstAux key seen l).map key).Nodup ∧
      ∀ a ∈ dedupFirstAux key seen l, key a ∉ seen := by
  intro l
  induction l with
  | nil => intro seen; simp [dedupFirstAux]
  | cons a rest ih =>
    intro seen
    simp only [dedupFirstAux]
    by_cases hc : seen.contains (key a)
    · rw [if_pos hc]; exact ih seen
    · rw [if_neg hc]
      have hmem : key a ∉ seen := fun h => hc (List.elem_iff.mpr h)
      refine ⟨?_, ?_⟩
      · rw [List.map_cons]
        refine List.nodup_cons.mpr ⟨?_, (ih (key a :: seen)).1⟩
        intro hmem2
        obtain ⟨b, hb, hkb⟩ := List.mem_map.mp hmem2
        exact (ih (key a :: seen)).2 b hb (hkb ▸ List.mem_cons_self (key a) seen)
      · intro b hb
        rcases List.mem_cons.mp hb with rfl | hb2
        · exact hmem
        · intro hin
          exact (ih (key a :: seen)).2 b hb2 (List.mem_cons_of_mem _ hin)

/-- C5: the filter keeps exactly the comments whose trimmed handle is
non-blank and whose text qualifies against the configured substring
(every non-blank-handle comment when none is configured), retains at
most one candidate per case-insensitive handle — first seen wins, with
the earliest qualifying comment's metadata and handle casing kept — and
preserves the input order (the kept comments form a sublist of the
input). -/
theorem dedupe_matches_spec (kw : String) (cs : List RawComment) :
    dedupeQualifying kw cs =
      (dedupFirstBy keyOf (cs.filter (qualifiesComment kw))).map
        (fun c => mkCandidate c (trimStr c.username)) ∧
    (dedupFirstBy keyOf (cs.filter (qualifiesComment kw))).Sublist cs ∧
    ((dedupeQualifying kw cs).map (fun p => lowerStr p.handle)).Nodup ∧
    (∀ c : RawComment, qualifiesComment "" c = !(trimStr c.username).data.isEmpty) := by
  have hmain : dedupeQualifying kw cs =
      (dedupFirstBy keyOf (cs.filter (qualifiesComment kw))).map
        (fun c => mkCandidate c (trimStr c.username)) := by
    have h := dedupeGo_spec kw cs [] []
    simpa [dedupeQualifying, dedupFirstBy] using h
  refine ⟨hmain, ?_, ?_, ?_⟩
  · exact (dedupFirstAux_sublist keyOf _ []).trans (List.filter_sublist cs)
  · rw [hmain, List.map_map]
    have hcomp : ((fun p : Candidate => lowerStr p.handle) ∘
        (fun c : RawComment => mkCandidate c (trimStr c.username))) = keyOf := by
      funext c; rfl
    rw [hcomp]
    exact (dedupFirstAux_keys keyOf _ []).1
  · intro c
    simp [qualifiesComment, qualifies]

theorem round_roster_invariants_witness :
    2 ≤ (100 : Int) ∧
    ((generateRound "" 100 none FeedOutcome.noPost (fun _ => 0) 0 "D").players.length : Int) =
      (generateRound "" 100 none FeedOutcome.noPost (fun _ => 0) 0 "D").finale_count :=
  ⟨by decide,
   (round_roster_invariants "" 100 none FeedOutcome.noPost (fun _ => 0) 0 "D" (by decide)).1⟩

/-! ### C8: leaderboard aggregation -/

/-- The count recorded for key `h` in the modeled tally object. -/
def lookupN (counts : List (String × Nat)) (h : String) : Nat :=
  ((counts.find? (fun p => p.1 == h)).map Prod.snd).getD 0

theorem lookup_map_bump (cs : List (String × Nat)) (w h : String) :
    lookupN (cs.map (fun p => if p.1 == w then (p.1, p.2 + 1) else p)) h =
      lookupN cs h + (if h = w ∧ cs.any (fun p => p.1 == w) then 1 else 0) := by
  induction cs with
  | nil => simp [lookupN]
  | cons p cs ih =>
    by_cases hpw : p.1 = w
    · by_cases hph : p.1 = h
      · have hw : h = w := hph ▸ hpw
        simp [lookupN, List.find?, hpw, hph, hw]
      · have hwne : ¬ h = w := fun e => hph (e ▸ hpw)
        simp only [List.map_cons, List.any_cons]
        rw [show ((if p.1 == w then (p.1, p.2 + 1) else p)) = (p.1, p.2 + 1) by simp [hpw]]
        unfold lookupN
        rw [List.find?_cons_of_neg _ (by simp [hph]),
          List.find?_cons_of_neg _ (by simp [hph])]
        have := ih
        unfold lookupN at this
        rw [this]
        simp [hwne]
    · by_cases hph : p.1 = h
      · simp only [List.map_cons, List.any_cons]
        rw [show ((if p.1 == w then (p.1, p.2 + 1) else p)) = p by simp [hpw]]
        unfold lookupN
        rw [List.find?_cons_of_pos _ (by simp [hph]),
          List.find?_cons_of_pos _ (by simp [hph])]
        have : ¬ h = w := fun e => hpw (hph.trans e)
        simp [this]
      · simp only [List.map_cons, List.any_cons]
        rw [show ((if p.1 == w then (p.1, p.2 + 1) else p)) = p by simp [hpw]]
        unfold lookupN
        rw [List.find?_cons_of_neg _ (by simp [hph]),
          List.find?_cons_of_neg _ (by simp [hph])]
        have := ih
        unfold lookupN at this
        rw [this]
        have horr : (p.1 == w || cs.any fun p => p.1 == w) = (cs.any fun p => p.1 == w) := by
          rw [beq_eq_false_iff_ne.mpr hpw]
          simp
        simp only [horr]

theorem lookup_append_new (cs : List (String × Nat)) (w h : String)
    (hnot : cs.any (fun p => p.1 == w) = false) :
    lookupN (cs ++ [(w, 1)]) h = lookupN cs h + (if h = w then 1 else 0) := by
  unfold lookupN
  rw [List.find?_append]
  by_cases hw : h = w
  · subst hw
    have hnone : cs.find? (fun p => p.1 == h) = none := by
      rw [List.find?_eq_none]
      intro x hx
      have := List.any_eq_false.mp hnot x hx
      simpa using this
    rw [hnone]
    simp [List.find?]
  · have htail : List.find? (fun p => p.1 == h) [(w, 1)] = none := by
      have hne : (w == h) = false := beq_eq_false_iff_ne.mpr (fun e => hw e.symm)
      simp [List.find?, hne]
    rw [htail]
    cases hfind : cs.find? (fun p => p.1 == h) <;> simp [hw]

theorem tallyStep_lookup (counts : List (String × Nat)) (w h : String) :
    lookupN (tallyStep counts w) h = lookupN counts h + (if h = w then 1 else 0) := by
  unfold tallyStep
  by_cases hany : counts.any (fun p => p.1 == w)
  · rw [if_pos hany, lookup_map_bump]
    congr 1
    by_cases hw : h = w <;> simp [hw, hany]
  · have hfalse : counts.any (fun p => p.1 == w) = false := by
      revert hany
      cases counts.any (fun p => p.1 == w) <;> simp
    rw [if_neg hany, lookup_append_new counts w h hfalse]

theorem tally_lookup (h : String) (ws : List String) :
    ∀ acc : List (String × Nat),
      lookupN (ws.foldl tallyStep acc) h = lookupN acc h + ws.count h := by
  induction ws with
  | nil => intro acc; simp
  | cons w ws ih =>
    intro acc
    rw [List.foldl_cons, ih (tallyStep acc w), tallyStep_lookup, List.count_cons]
    by_cases hw : h = w
    · subst hw
      simp
      omega
    · have hbe : (w == h) = false := by
        simp only [beq_eq_false_iff_ne, ne_eq]
        exact fun e => hw e.symm
      simp [hw, hbe]

theorem tallyStep_keys (counts : List (String × Nat)) (w : String) :
    (tallyStep counts w).map Prod.fst =
      if counts.any (fun p => p.1 == w) then counts.map Prod.fst
      else counts.map Prod.fst ++ [w] := by
  unfold tallyStep
  by_cases hany : counts.any (fun p => p.1 == w)
  · rw [if_pos hany, if_pos hany, List.map_map]
    apply List.map_congr_left
    intro p _
    simp only [Function.comp_apply]
    split <;> rfl
  · rw [if_neg hany, if_neg hany, List.map_append]
    rfl

theorem tally_keys (h : String) (ws : List String) :
    ∀ acc : List (String × Nat),
      (h ∈ (ws.foldl tallyStep acc).map Prod.fst ↔ h ∈ acc.map Prod.fst ∨ h ∈ ws) := by
  induction ws with
  | nil => intro acc; simp
  | cons w ws ih =>
    intro acc
    rw [List.foldl_cons, ih (tallyStep acc w), tallyStep_keys]
    by_cases hany : acc.any (fun p => p.1 == w)
    · rw [if_pos hany]
      have hw : w ∈ acc.map Prod.fst := by
        obtain ⟨p, hp, hpw⟩ := List.any_eq_true.mp hany
        exact List.mem_map.mpr ⟨p, hp, by simpa using hpw⟩
      constructor
      · rintro (hin | hin)
        · exact Or.inl hin
        · exact Or.inr (List.mem_cons_of_mem _ hin)
      · rintro (hin | hin)
        · exact Or.inl hin
        · rcases List.mem_cons.mp hin with rfl | hin2
          · exact Or.inl hw
          · exact Or.inr hin2
    · rw [if_neg hany]
      simp only [List.mem_append, List.mem_singleton, List.mem_cons]
      tauto

theorem tally_keys_nodup (ws : List String) :
    ∀ acc : List (String × Nat),
      (acc.map Prod.fst).Nodup → ((ws.foldl tallyStep acc).map Prod.fst).Nodup := by
  induction ws with
  | nil => intro acc hacc; simpa
  | cons w ws ih =>
    intro acc hacc
    rw [List.foldl_cons]
    apply ih
    rw [tallyStep_keys]
    by_cases hany : acc.any (fun p => p.1 == w)
    · rwa [if_pos hany]
    · rw [if_neg hany]
      have hw : w ∉ acc.map Prod.fst := by
        intro hmem
        obtain ⟨p, hp, hpw⟩ := List.mem_map.mp hmem
        exact hany (List.any_eq_true.mpr ⟨p, hp, by simp [hpw]⟩)
      have hperm := List.perm_append_singleton w (acc.map Prod.fst)
      rw [hperm.nodup_iff]
      exact List.nodup_cons.mpr ⟨hw, hacc⟩

theorem find?_eq_of_keys_nodup :
    ∀ l : List (String × Nat), (l.map Prod.fst).Nodup →
      ∀ p ∈ l, l.find? (fun q => q.1 == p.1) = some p := by
  intro l
  induction l with
  | nil => intro _ p hp; cases hp
  | cons q l ih =>
    intro hnd p hp
    have hnd1 : q.1 ∉ l.map Prod.fst := (List.nodup_cons.mp (by simpa using hnd)).1
    have hnd2 : (l.map Prod.fst).Nodup := (List.nodup_cons.mp (by simpa using hnd)).2
    by_cases hq : q.1 = p.1
    · rcases List.mem_cons.mp hp with rfl | hpl
      · exact List.find?_cons_of_pos _ (by simp)
      · exfalso
        exact hnd1 (hq ▸ List.mem_map.mpr ⟨p, hpl, rfl⟩)
    · rcases List.mem_cons.mp hp with rfl | hpl
      · exact absurd rfl hq
      · rw [List.find?_cons_of_neg _ (by simpa using hq)]
        exact ih hnd2 p hpl

theorem tally_value (ws : List String) (p : String × Nat)
    (hp : p ∈ ws.foldl tallyStep []) : p.2 = ws.count p.1 := by
  have hnd := tally_keys_nodup ws [] (by simp)
  have hfind := find?_eq_of_keys_nodup _ hnd p hp
  have hlook := tally_lookup p.1 ws []
  unfold lookupN at hlook
  rw [hfind] at hlook
  simpa [lookupN] using hlook

theorem count_filterMap_winner (h : String) (rounds : List Round) :
    (rounds.filterMap Round.winner).count h =
      (rounds.filter (fun r => r.winner == some h)).length := by
  induction rounds with
  | nil => rfl
  | cons r rs ih =>
    cases hw : r.winner with
    | none => simp [List.filterMap_cons, hw, List.filter_cons, ih]
    | some w =>
      by_cases hwh : w = h
      · subst hwh
        simp [List.filterMap_cons, hw, List.filter_cons, List.count_cons, ih]
      · have hbe : (w == h) = false := by simpa using hwh
        simp [List.filterMap_cons, hw, List.filter_cons, List.count_cons, ih, hbe, hwh]

/-- A stored round whose winner column holds the empty string (storable
in the text column, though never written by this variant's own
recorder). -/
def emptyWinnerRound : Round :=
  { round_date := "2026-01-01", mode := "live", status := "complete", claimed_total := 2,
    finale_count := 2, seed := 0, post := none, players := [], winner := some "",
    winner_slot := none, winner_set_at := none }

/-- C8 (counterexample): the handler skips falsy winner strings
(`if (!w) continue`), so a stored round whose winner is the non-null
empty string contributes no leaderboard pair, although the claim
requires one pair per distinct winner handle among rounds with a
non-null winner. -/
theorem leaderboard_claim_false :
    emptyWinnerRound.winner = some "" ∧ emptyWinnerRound.winner ≠ none ∧
    leaderboard [emptyWinnerRound] = [] := by
  refine ⟨rfl, by decide, ?_⟩
  have h0 : leaderboard [emptyWinnerRound] =
      ([] : List (String × Nat)).mergeSort (fun a b => decide (b.2 ≤ a.2)) := rfl
  rw [h0, List.mergeSort_nil]

/-- C8 (amended): the leaderboard has exactly one pair per distinct
exact winner handle string among the stored rounds whose winner is
non-null and non-empty (grouping not case-normalized; empty strings are
skipped by `if (!w) continue`), each pair's count is the number of such
rounds carrying exactly that string, and the sequence is sorted in
descending order of count. -/
theorem leaderboard_spec (rounds : List Round) :
    ((leaderboard rounds).map Prod.fst).Nodup ∧
    (∀ h : String, h ∈ (leaderboard rounds).map Prod.fst ↔
        h ∈ (rounds.filterMap Round.winner).filter (fun w => !w.data.isEmpty)) ∧
    (∀ p ∈ leaderboard rounds,
        p.2 = (rounds.filter (fun r => r.winner == some p.1)).length) ∧
    List.Pairwise (fun a b : String × Nat => b.2 ≤ a.2) (leaderboard rounds) := by
  have hperm : (leaderboard rounds).Perm
      (((rounds.filterMap Round.winner).filter
        (fun w => !w.data.isEmpty)).foldl tallyStep []) :=
    List.mergeSort_perm _ _
  have hkeysperm := hperm.map Prod.fst
  refine ⟨?_, ?_, ?_, ?_⟩
  · rw [hkeysperm.nodup_iff]
    exact tally_keys_nodup _ [] (by simp)
  · intro h
    rw [hkeysperm.mem_iff, tally_keys]
    simp
  · intro p hp
    have hpmem := hperm.mem_iff.mp hp
    have hval := tally_value _ p hpmem
    have hkey : p.1 ∈ ((rounds.filterMap Round.winner).filter
        (fun w => !w.data.isEmpty)) := by
      have : p.1 ∈ (((rounds.filterMap Round.winner).filter
          (fun w => !w.data.isEmpty)).foldl tallyStep []).map Prod.fst :=
        List.mem_map.mpr ⟨p, hpmem, rfl⟩
      rw [tally_keys] at this
      simpa using this
    have hne : (!p.1.data.isEmpty) = true := (List.mem_filter.mp hkey).2
    have hcf := @List.count_filter String _ _ (fun w => !w.data.isEmpty) p.1
      (rounds.filterMap Round.winner) hne
    rw [hval, hcf, count_filterMap_winner]
  · have hsorted := @List.sorted_mergeSort (String × Nat)
      (fun a b => decide (b.2 ≤ a.2))
      (fun a b c h1 h2 => by
        simp only [decide_eq_true_eq] at h1 h2 ⊢
        omega)
      (fun a b => by
        simp only [Bool.or_eq_true, decide_eq_true_eq]
        omega)
      (((rounds.filterMap Round.winner).filter
        (fun w => !w.data.isEmpty)).foldl tallyStep [])
    exact hsorted.imp (fun hd => of_decide_eq_true hd)

theorem leaderboard_spec_witness :
    ((leaderboard [sampleRound, emptyWinnerRound]).map Prod.fst).Nodup :=
  (leaderboard_spec [sampleRound, emptyWinnerRound]).1
